import Mathlib

/-!
Verification of the network topology analyzer of script/validation/validate_network.py.

The analyzer works on the ROADS part of a parsed network description: a
collection of nodes and a collection of directed sections.  We embed the data
model and each analysis routine (build_adjacency_matrix, identify_deadends,
identify_springs, identify_duplicate_sections, compute_centralities, the
analyze_roads result triple and the main-flow bindings) as executable Lean
definitions and prove the stated properties about them.

Python dictionaries are embedded as association lists in insertion order;
pandas boolean DataFrames are embedded as an index list together with a
Boolean adjacency function.  The while-loops of the pruning routines are
embedded with explicit fuel; we prove that the fuel used by the embedding
suffices for every input, so the embedding agrees with the unbounded loop.
Fallible code paths (pandas raising on a column access that does not exist)
are embedded with Option.
-/

/-- A directed section of the road network: record with fields id, upstream,
downstream as in the SECTIONS entries of the network file.  The length
attribute of a section is a float that none of the embedded analyses reads,
so it is not modelled. -/
structure Section where
  id : String
  upstream : String
  downstream : String
deriving Repr, DecidableEq

/-- A node of the road network.  Only the id field is read by the embedded
analyses (position is only used for plotting). -/
structure Node where
  id : String
deriving Repr, DecidableEq

/-- The ROADS data: NODES and SECTIONS collections, kept in the insertion
order of the underlying Python dictionaries. -/
structure Roads where
  nodes : List Node
  sections : List Section
deriving Repr, DecidableEq

/-- The boolean adjacency matrix of build_adjacency_matrix: a pandas
DataFrame with a row/column index (the sorted set of endpoint node ids) and
a Boolean entry function. -/
structure AdjMatrix where
  index : List String
  adj : String → String → Bool

/-- Lexicographic strict order on character lists by code point, the order
in which numpy and Python compare the node id strings. -/
def charListLt : List Char → List Char → Bool
  | [], [] => false
  | [], _ :: _ => true
  | _ :: _, [] => false
  | c :: cs, d :: ds => c.toNat < d.toNat || (c.toNat = d.toNat && charListLt cs ds)

/-- Lexicographic strict order on strings by code point. -/
def strLt (a b : String) : Bool := charListLt a.data b.data

/-- Insert a string into a sorted duplicate-free list, keeping it sorted and
duplicate-free.  Used to model the sorted-unique index np.union1d builds. -/
def insertNode (x : String) : List String → List String
  | [] => [x]
  | y :: ys =>
    if x = y then y :: ys
    else if strLt x y then x :: y :: ys
    else y :: insertNode x ys

/-- The index set of the adjacency matrix: the union of all upstream and
downstream values of the sections, sorted and without duplicates, as
np.union1d(df.upstream.unique(), df.downstream.unique()) produces it. -/
def buildIndex (sections : List Section) : List String :=
  (sections.map Section.upstream ++ sections.map Section.downstream).foldr insertNode []

/-- build_adjacency_matrix: marks adjacency 1 where a section connects two
nodes, 0 elsewhere.  On an empty section collection the source builds an
empty DataFrame without an upstream column, so the attribute access
df_links.upstream raises AttributeError; this failure is embedded as none. -/
def build_adjacency_matrix (sections : List Section) : Option AdjMatrix :=
  match sections with
  | [] => none
  | _ =>
    some { index := buildIndex sections
           adj := fun u v => sections.any fun s => s.upstream = u ∧ s.downstream = v }

/-- Whether the whole outgoing row of node u is zero: (df_adj == 0).all(axis=1). -/
def rowAllZero (m : AdjMatrix) (u : String) : Bool :=
  m.index.all fun v => ! m.adj u v

/-- Whether the whole incoming column of node v is zero: (df_adj == 0).all(axis=0). -/
def colAllZero (m : AdjMatrix) (v : String) : Bool :=
  m.index.all fun u => ! m.adj u v

/-- The index labels whose outgoing row is entirely zero, in index order:
s_deadEnds[s_deadEnds].index. -/
def zeroRowNodes (m : AdjMatrix) : List String :=
  m.index.filter (rowAllZero m)

/-- The index labels whose incoming column is entirely zero, in index order:
s_springs[s_springs].index. -/
def zeroColNodes (m : AdjMatrix) : List String :=
  m.index.filter (colAllZero m)

/-- Zero out the columns of the given labels: df_adj.loc[:, ls] = 0. -/
def zeroOutColumns (m : AdjMatrix) (cols : List String) : AdjMatrix :=
  { index := m.index
    adj := fun u v => if cols.contains v then false else m.adj u v }

/-- Zero out the rows of the given labels: df_adj.loc[ls, :] = 0. -/
def zeroOutRows (m : AdjMatrix) (rows : List String) : AdjMatrix :=
  { index := m.index
    adj := fun u v => if rows.contains u then false else m.adj u v }

/-- The while-loop body of identify_deadends, with explicit fuel: zero the
columns of the current candidates, recompute the zero-row labels, stop when
the recomputed labels equal the current ones. -/
def deadendLoop : Nat → AdjMatrix → List String → List String
  | 0, _, ls => ls
  | fuel + 1, m, ls =>
    let m2 := zeroOutColumns m ls
    let newDe := zeroRowNodes m2
    if newDe = ls then newDe else deadendLoop fuel m2 newDe

/-- identify_deadends: iterated pruning of nodes with no outgoing edges.
The fuel index.length + 1 is proved sufficient below, so this equals the
unbounded while-loop of the source. -/
def identify_deadends (m : AdjMatrix) : List String :=
  deadendLoop (m.index.length + 1) m (zeroRowNodes m)

/-- The while-loop body of identify_springs, with explicit fuel: zero the
rows of the current candidates, recompute the zero-column labels, stop when
the recomputed labels equal the current ones. -/
def springLoop : Nat → AdjMatrix → List String → List String
  | 0, _, ls => ls
  | fuel + 1, m, ls =>
    let m2 := zeroOutRows m ls
    let newSp := zeroColNodes m2
    if newSp = ls then newSp else springLoop fuel m2 newSp

/-- identify_springs: iterated pruning of nodes with no incoming edges. -/
def identify_springs (m : AdjMatrix) : List String :=
  springLoop (m.index.length + 1) m (zeroColNodes m)

/-- The transpose of an adjacency matrix (same index, edges reversed). -/
def transposeM (m : AdjMatrix) : AdjMatrix :=
  { index := m.index, adj := fun u v => m.adj v u }

/-- One iteration of the dead-end pruning loop as a state transformer on
(current matrix, current candidate set). -/
def deStep (st : AdjMatrix × List String) : AdjMatrix × List String :=
  let m2 := zeroOutColumns st.1 st.2
  (m2, zeroRowNodes m2)

/-- The pruning state after k iterations of the dead-end loop, starting from
the initial matrix and initial zero-row candidates. -/
def deState (m : AdjMatrix) (k : Nat) : AdjMatrix × List String :=
  deStep^[k] (m, zeroRowNodes m)

/-- The candidate dead-end set recomputed at iteration k of the loop. -/
def deCandidates (m : AdjMatrix) (k : Nat) : List String :=
  (deState m k).2

/-- One iteration of the spring pruning loop as a state transformer. -/
def spStep (st : AdjMatrix × List String) : AdjMatrix × List String :=
  let m2 := zeroOutRows st.1 st.2
  (m2, zeroColNodes m2)

/-- The pruning state after k iterations of the spring loop. -/
def spState (m : AdjMatrix) (k : Nat) : AdjMatrix × List String :=
  spStep^[k] (m, zeroColNodes m)

/-- The candidate spring set recomputed at iteration k of the loop. -/
def spCandidates (m : AdjMatrix) (k : Nat) : List String :=
  (spState m k).2

/-- Association-list lookup with decidable equality, the first binding of a
key wins: the lookup of a Python dictionary. -/
def alookup {α β : Type} [DecidableEq α] (k : α) : List (α × β) → Option β
  | [] => none
  | p :: rest => if p.1 = k then some p.2 else alookup k rest

/-- d.get(k, 0) on a dictionary embedded as an association list. -/
def dictGet0 (d : List (String × Nat)) (k : String) : Nat :=
  (alookup k d).getD 0

/-- d[k] = v on a dictionary embedded as an association list: a present key
keeps its position, a new key is appended at the end (Python insertion
order). -/
def dictSetNat (d : List (String × Nat)) (k : String) (v : Nat) : List (String × Nat) :=
  match alookup k d with
  | none => d ++ [(k, v)]
  | some _ => d.map fun p => if p.1 = k then (k, v) else p

/-- The first statement of the inner loop body of compute_centralities:
increment the entry of the node id when it is the upstream of the section. -/
def centUp (idNode : String) (cent : List (String × Nat)) (s : Section) :
    List (String × Nat) :=
  if idNode = s.upstream then dictSetNat cent idNode (dictGet0 cent idNode + 1) else cent

/-- The second statement of the inner loop body of compute_centralities:
increment the entry of the node id when it is the downstream of the
section. -/
def centDown (idNode : String) (cent : List (String × Nat)) (s : Section) :
    List (String × Nat) :=
  if idNode = s.downstream then dictSetNat cent idNode (dictGet0 cent idNode + 1) else cent

/-- The body of the inner loop of compute_centralities for one section: the
upstream check followed by the downstream check. -/
def centUpdate (idNode : String) (cent : List (String × Nat)) (s : Section) :
    List (String × Nat) :=
  centDown idNode (centUp idNode cent s) s

/-- The inner loop of compute_centralities for one node id over all
sections. -/
def centNodeLoop (sections : List Section) (idNode : String)
    (cent : List (String × Nat)) : List (String × Nat) :=
  sections.foldl (centUpdate idNode) cent

/-- compute_centralities: for every node of the NODES collection, count the
sections referencing it as upstream plus those referencing it as downstream,
accumulated in a dictionary embedded as an association list. -/
def compute_centralities (roads : Roads) : List (String × Nat) :=
  roads.nodes.foldl (fun cent nd => centNodeLoop roads.sections nd.id cent) []

/-- The endpoint pair of a section. -/
def pairOf (s : Section) : String × String := (s.upstream, s.downstream)

/-- One step of identify_duplicate_sections: append the section id to the
list of its endpoint pair, creating the entry at the end on first sight. -/
def dupInsert (seen : List ((String × String) × List String)) (pr : String × String)
    (sid : String) : List ((String × String) × List String) :=
  match alookup pr seen with
  | none => seen ++ [(pr, [sid])]
  | some _ => seen.map fun q => if q.1 = pr then (q.1, q.2 ++ [sid]) else q

/-- identify_duplicate_sections: returns the seen_pairs dictionary mapping
each ordered endpoint pair to the list of section ids with that pair, in
first-occurrence order of the pair and input order within each group. -/
def identify_duplicate_sections (sections : List Section) :
    List ((String × String) × List String) :=
  sections.foldl (fun seen s => dupInsert seen (pairOf s) s.id) []

/-- The duplicate groups reported by analyze_roads: the entries of
identify_duplicate_sections whose member list has more than one element. -/
def duplicate_groups (sections : List Section) :
    List ((String × String) × List String) :=
  (identify_duplicate_sections sections).filter fun g => 1 < g.2.length

/-- max(centralities, key=centralities.get): iterate over the keys in
insertion order keeping the current best, replacing it only on a strictly
greater value, so the first key attaining the maximum wins; raises
ValueError on an empty dictionary, embedded as none. -/
def max_centrality_key (cent : List (String × Nat)) : Option String :=
  match cent with
  | [] => none
  | p :: rest => some (rest.foldl (fun best q => if best.2 < q.2 then q else best) p).1

/-- The analysis triple returned by analyze_roads: dead-ends, springs and
isolates of the adjacency matrix built from the sections (the summary
statistics it prints do not feed into the returned value).  The failure of
build_adjacency_matrix on an empty section collection propagates. -/
def analyze_roads (roads : Roads) : Option (List String × List String × List String) :=
  match build_adjacency_matrix roads.sections with
  | none => none
  | some m =>
    let deadends := identify_deadends m
    let springs := identify_springs m
    let isolates := deadends.filter fun v => v ∈ springs
    some (deadends, springs, isolates)

/-- The three variables bound at the call site of analyze_roads in the main
flow. -/
structure MainBindings where
  springs : List String
  deadends : List String
  isolates : List String
deriving Repr, DecidableEq

/-- The main flow binding springs, deadends, isolates = analyze_roads(roads):
the first component of the returned tuple is bound to the variable springs
and the second to deadends. -/
def main_flow (roads : Roads) : Option MainBindings :=
  (analyze_roads roads).map fun t => { springs := t.1, deadends := t.2.1, isolates := t.2.2 }

-- Specification-side definitions, used to state the claims.

/-- Specification-side: the incidence degree of a node id, the count of
sections having it as upstream plus the count having it as downstream. -/
def nodeDegree (sections : List Section) (k : String) : Nat :=
  sections.countP (fun s => k = s.upstream) + sections.countP (fun s => k = s.downstream)

/-- Specification-side: the distinct elements of a list in first-occurrence
order. -/
def firstOccs {α : Type} [DecidableEq α] : List α → List α
  | [] => []
  | a :: l => a :: (firstOccs l).filter fun b => b ≠ a

/-- Specification-side: the maximum of a list of naturals (zero when empty). -/
def listMax (vals : List Nat) : Nat := vals.foldr Nat.max 0

-- Concrete sanity checks of the embedding (chain A to B to C to D).

/-- The four-node chain graph sections: A to B, B to C, C to D. -/
def chainSections : List Section :=
  [ { id := "s1", upstream := "A", downstream := "B" }
  , { id := "s2", upstream := "B", downstream := "C" }
  , { id := "s3", upstream := "C", downstream := "D" } ]

/-- The adjacency matrix of the chain graph. -/
def chainMatrix : AdjMatrix :=
  (build_adjacency_matrix chainSections).getD { index := [], adj := fun _ _ => false }

example : buildIndex chainSections = ["A", "B", "C", "D"] := by decide

example : identify_deadends chainMatrix = ["A", "B", "C", "D"] := by decide

example : identify_springs chainMatrix = ["A", "B", "C", "D"] := by decide

example :
    compute_centralities
      { nodes := [{ id := "A" }, { id := "B" }, { id := "C" }]
        sections :=
          [ { id := "s1", upstream := "A", downstream := "B" }
          , { id := "s2", upstream := "B", downstream := "C" }
          , { id := "s3", upstream := "C", downstream := "B" } ] } =
      [("A", 1), ("B", 3), ("C", 2)] := by decide

example :
    compute_centralities
      { nodes := [{ id := "A" }, { id := "B" }, { id := "C" }]
        sections := [{ id := "s1", upstream := "A", downstream := "B" }] } =
      [("A", 1), ("B", 1)] := by decide

example :
    identify_duplicate_sections
      [ { id := "s1", upstream := "A", downstream := "B" }
      , { id := "s2", upstream := "A", downstream := "B" }
      , { id := "s3", upstream := "B", downstream := "C" } ] =
      [(("A", "B"), ["s1", "s2"]), (("B", "C"), ["s3"])] := by decide

example :
    duplicate_groups
      [ { id := "s1", upstream := "A", downstream := "B" }
      , { id := "s2", upstream := "A", downstream := "B" }
      , { id := "s3", upstream := "B", downstream := "C" } ] =
      [(("A", "B"), ["s1", "s2"])] := by decide

example : max_centrality_key [("B", 1), ("A", 1)] = some "B" := by decide

example :
    (build_adjacency_matrix [{ id := "loop", upstream := "A", downstream := "A" }]).map
        (fun m => (identify_deadends m, identify_springs m)) =
      some ([], []) := by decide

example :
    main_flow
      { nodes := [{ id := "A" }, { id := "B" }, { id := "C" }]
        sections :=
          [ { id := "a", upstream := "A", downstream := "B" }
          , { id := "b", upstream := "B", downstream := "A" }
          , { id := "c", upstream := "B", downstream := "C" } ] } =
      some { springs := ["C"], deadends := [], isolates := [] } := by decide

-- C1: behavior on an empty Section collection.

/-- The empty adjacency matrix: empty index, no entries. -/
def emptyAdj : AdjMatrix := { index := [], adj := fun _ _ => false }

/-- C1 counterexample: on an empty Section collection build_adjacency_matrix
does not return an adjacency matrix at all (the source raises
AttributeError on the upstream column of the empty DataFrame, embedded as
none), so the claimed exception-free empty-index result does not exist. -/
theorem C1_counterexample : (build_adjacency_matrix ([] : List Section)).isSome = false := rfl

/-- C1 (amended): on an empty Section collection build_adjacency_matrix
fails rather than returning an empty-index matrix; dead-end and spring
identification applied to an empty-index matrix do return empty sets. -/
theorem C1_empty_sections :
    build_adjacency_matrix ([] : List Section) = none ∧
    identify_deadends emptyAdj = [] ∧
    identify_springs emptyAdj = [] :=
  ⟨rfl, rfl, rfl⟩

-- C7: the four-node chain graph.

/-- The Roads data of the four-node chain graph. -/
def chainRoads : Roads :=
  { nodes := [{ id := "A" }, { id := "B" }, { id := "C" }, { id := "D" }]
    sections := chainSections }

/-- C7: for the chain A to B to C to D, dead-end identification converges to
all four nodes, spring identification converges to all four nodes, and the
isolate set is all four nodes. -/
theorem C7_chain_pruning :
    build_adjacency_matrix chainSections = some chainMatrix ∧
    identify_deadends chainMatrix = ["A", "B", "C", "D"] ∧
    identify_springs chainMatrix = ["A", "B", "C", "D"] ∧
    analyze_roads chainRoads =
      some (["A", "B", "C", "D"], ["A", "B", "C", "D"], ["A", "B", "C", "D"]) :=
  ⟨rfl, by decide, by decide, by decide⟩

-- C3: the unpack swap at the analyze_roads call site.

/-- C3: in the main flow, the variable springs receives the dead-end set and
the variable deadends receives the spring set: the triple returned by
analyze_roads is (deadends, springs, isolates) but is unpacked as
springs, deadends, isolates at the call site. -/
theorem C3_unpack_swap (roads : Roads) (m : AdjMatrix) (b : MainBindings)
    (hm : build_adjacency_matrix roads.sections = some m)
    (hb : main_flow roads = some b) :
    b.springs = identify_deadends m ∧
    b.deadends = identify_springs m ∧
    b.isolates = (identify_deadends m).filter (fun v => v ∈ identify_springs m) := by
  have hflow : main_flow roads =
      some { springs := identify_deadends m, deadends := identify_springs m
             isolates := (identify_deadends m).filter (fun v => v ∈ identify_springs m) } := by
    unfold main_flow analyze_roads
    rw [hm]
    rfl
  rw [hflow] at hb
  injection hb with hb
  rw [← hb]
  exact ⟨rfl, rfl, rfl⟩

/-- A graph whose dead-end set and spring set differ: a two-cycle between A
and B with a tail to C. -/
def swapRoads : Roads :=
  { nodes := [{ id := "A" }, { id := "B" }, { id := "C" }]
    sections :=
      [ { id := "a", upstream := "A", downstream := "B" }
      , { id := "b", upstream := "B", downstream := "A" }
      , { id := "c", upstream := "B", downstream := "C" } ] }

/-- The adjacency matrix of swapRoads. -/
def swapMatrix : AdjMatrix := (build_adjacency_matrix swapRoads.sections).getD emptyAdj

/-- C3 witness: on swapRoads the main flow binds springs to the dead-end set
of the matrix and deadends to its spring set. -/
theorem C3_unpack_swap_witness :
    MainBindings.springs { springs := ["C"], deadends := [], isolates := [] } =
        identify_deadends swapMatrix ∧
    MainBindings.deadends { springs := ["C"], deadends := [], isolates := [] } =
        identify_springs swapMatrix ∧
    MainBindings.isolates { springs := ["C"], deadends := [], isolates := [] } =
        (identify_deadends swapMatrix).filter (fun v => v ∈ identify_springs swapMatrix) :=
  C3_unpack_swap swapRoads swapMatrix
    { springs := ["C"], deadends := [], isolates := [] } rfl (by decide)

-- Transpose symmetry of the two pruning loops.

/-- Double transposition is the identity. -/
theorem transposeM_transposeM (m : AdjMatrix) : transposeM (transposeM m) = m := rfl

/-- The spring loop on the transposed matrix runs the dead-end loop on the
original matrix. -/
theorem springLoop_transpose (fuel : Nat) : ∀ (m : AdjMatrix) (ls : List String),
    springLoop fuel (transposeM m) ls = deadendLoop fuel m ls := by
  induction fuel with
  | zero => intro m ls; rfl
  | succ n ih =>
    intro m ls
    show (if zeroColNodes (zeroOutRows (transposeM m) ls) = ls
          then zeroColNodes (zeroOutRows (transposeM m) ls)
          else springLoop n (zeroOutRows (transposeM m) ls)
            (zeroColNodes (zeroOutRows (transposeM m) ls))) = _
    have hz : zeroOutRows (transposeM m) ls = transposeM (zeroOutColumns m ls) := rfl
    rw [hz]
    have hc : zeroColNodes (transposeM (zeroOutColumns m ls)) =
        zeroRowNodes (zeroOutColumns m ls) := rfl
    rw [hc]
    show _ = (if zeroRowNodes (zeroOutColumns m ls) = ls
          then zeroRowNodes (zeroOutColumns m ls)
          else deadendLoop n (zeroOutColumns m ls) (zeroRowNodes (zeroOutColumns m ls)))
    split
    · rfl
    · exact ih (zeroOutColumns m ls) (zeroRowNodes (zeroOutColumns m ls))

/-- identify_springs is identify_deadends of the transposed matrix. -/
theorem identify_springs_eq_transpose (m : AdjMatrix) :
    identify_springs m = identify_deadends (transposeM m) := by
  have h := springLoop_transpose (m.index.length + 1) (transposeM m) (zeroColNodes m)
  rw [transposeM_transposeM] at h
  exact h

/-- C8: spring identification on the transposed matrix equals dead-end
identification on the original, and dead-end identification on the
transposed matrix equals spring identification on the original. -/
theorem C8_transpose_symmetry (m : AdjMatrix) :
    identify_springs (transposeM m) = identify_deadends m ∧
    identify_deadends (transposeM m) = identify_springs m := by
  constructor
  · have h := springLoop_transpose (m.index.length + 1) m (zeroRowNodes m)
    exact h
  · exact (identify_springs_eq_transpose m).symm

-- C6: a self-loop keeps its node out of both pruned sets.

/-- A node whose diagonal entry is true never enters the dead-end loop
candidates: zeroing columns of other nodes leaves the diagonal entry true,
so the row of the node never becomes entirely zero. -/
theorem selfLoop_deadendLoop (A : String) (fuel : Nat) :
    ∀ (m : AdjMatrix) (ls : List String),
      m.adj A A = true → A ∉ ls → A ∉ deadendLoop fuel m ls := by
  induction fuel with
  | zero => intro m ls _ hls; exact hls
  | succ n ih =>
    intro m ls hadj hls
    show A ∉ (if zeroRowNodes (zeroOutColumns m ls) = ls
        then zeroRowNodes (zeroOutColumns m ls)
        else deadendLoop n (zeroOutColumns m ls) (zeroRowNodes (zeroOutColumns m ls)))
    have hcon : ls.contains A = false := by simpa using hls
    have hadj2 : (zeroOutColumns m ls).adj A A = true := by
      show (if ls.contains A then false else m.adj A A) = true
      rw [hcon]
      simpa using hadj
    have hnew : A ∉ zeroRowNodes (zeroOutColumns m ls) := by
      intro hmem
      rcases List.mem_filter.mp hmem with ⟨hidx, hall⟩
      have := (List.all_eq_true.mp hall) A hidx
      rw [hadj2] at this
      exact absurd this (by decide)
    split
    · exact hnew
    · exact ih (zeroOutColumns m ls) (zeroRowNodes (zeroOutColumns m ls)) hadj2 hnew

/-- A node with a true diagonal entry is not identified as a dead-end. -/
theorem selfLoop_not_deadend (m : AdjMatrix) (A : String) (hadj : m.adj A A = true) :
    A ∉ identify_deadends m := by
  have hinit : A ∉ zeroRowNodes m := by
    intro hmem
    rcases List.mem_filter.mp hmem with ⟨hidx, hall⟩
    have := (List.all_eq_true.mp hall) A hidx
    rw [hadj] at this
    exact absurd this (by decide)
  exact selfLoop_deadendLoop A (m.index.length + 1) m (zeroRowNodes m) hadj hinit

/-- C6: a node carrying a self-loop section is classified neither as a
dead-end nor as a spring nor as an isolate: the diagonal entry takes part in
the zero-row and zero-column tests of the pruning loops. -/
theorem C6_self_loop_inclusive (sections : List Section) (A : String) (m : AdjMatrix)
    (hs : ∃ s ∈ sections, s.upstream = A ∧ s.downstream = A)
    (hm : build_adjacency_matrix sections = some m) :
    A ∉ identify_deadends m ∧ A ∉ identify_springs m ∧
      A ∉ (identify_deadends m).filter (fun v => v ∈ identify_springs m) := by
  have hadj : m.adj A A = true := by
    match sections, hm with
    | s0 :: rest, hm =>
      injection hm with hm
      rw [← hm]
      simp only [List.any_eq_true, decide_eq_true_eq]
      rcases hs with ⟨s, hmem, h1, h2⟩
      exact ⟨s, hmem, h1, h2⟩
  have hde : A ∉ identify_deadends m := selfLoop_not_deadend m A hadj
  have hsp : A ∉ identify_springs m := by
    rw [identify_springs_eq_transpose]
    exact selfLoop_not_deadend (transposeM m) A hadj
  refine ⟨hde, hsp, ?_⟩
  intro hmem
  exact hde (List.mem_filter.mp hmem).1

/-- The Roads data with a single self-loop section at node A. -/
def selfLoopSections : List Section := [{ id := "loop", upstream := "A", downstream := "A" }]

/-- The adjacency matrix of the self-loop graph. -/
def selfLoopMatrix : AdjMatrix := (build_adjacency_matrix selfLoopSections).getD emptyAdj

/-- C6 witness: for the graph whose only section is the self-loop at A, the
node A is in none of the three classified sets. -/
theorem C6_self_loop_inclusive_witness :
    "A" ∉ identify_deadends selfLoopMatrix ∧ "A" ∉ identify_springs selfLoopMatrix ∧
      "A" ∉ (identify_deadends selfLoopMatrix).filter
        (fun v => v ∈ identify_springs selfLoopMatrix) :=
  C6_self_loop_inclusive selfLoopSections "A" selfLoopMatrix
    ⟨{ id := "loop", upstream := "A", downstream := "A" }, by decide, rfl, rfl⟩ rfl

-- Iteration invariants of the dead-end loop.

/-- Extensionality for adjacency matrices. -/
theorem AdjMatrix.eq_of (m1 m2 : AdjMatrix) (h1 : m1.index = m2.index)
    (h2 : m1.adj = m2.adj) : m1 = m2 := by
  cases m1; cases m2; cases h1; cases h2; rfl

/-- Zeroing the same columns twice is the same as zeroing them once. -/
theorem zeroOutColumns_idem (m : AdjMatrix) (d : List String) :
    zeroOutColumns (zeroOutColumns m d) d = zeroOutColumns m d := by
  refine AdjMatrix.eq_of _ _ rfl ?_
  funext u v
  show (if d.contains v then false else if d.contains v then false else m.adj u v) =
    (if d.contains v then false else m.adj u v)
  split <;> rfl

/-- A row that is entirely zero stays entirely zero after zeroing columns. -/
theorem rowAllZero_zeroOutColumns (m : AdjMatrix) (d : List String) (u : String)
    (h : rowAllZero m u = true) : rowAllZero (zeroOutColumns m d) u = true := by
  simp only [rowAllZero, List.all_eq_true] at h ⊢
  intro v hv
  have hm := h v hv
  show (! (if d.contains v then false else m.adj u v)) = true
  split
  · rfl
  · exact hm

/-- The candidate component of the loop state is always the zero-row set of
the matrix component. -/
theorem deState_snd (m : AdjMatrix) (k : Nat) :
    (deState m k).2 = zeroRowNodes (deState m k).1 := by
  induction k with
  | zero => rfl
  | succ n _ =>
    have h : deState m (n + 1) = deStep (deState m n) :=
      Function.iterate_succ_apply' deStep n (m, zeroRowNodes m)
    rw [h]
    rfl

/-- The matrix component of the loop state keeps the original index. -/
theorem deState_index (m : AdjMatrix) (k : Nat) :
    (deState m k).1.index = m.index := by
  induction k with
  | zero => rfl
  | succ n ih =>
    have h : deState m (n + 1) = deStep (deState m n) :=
      Function.iterate_succ_apply' deStep n (m, zeroRowNodes m)
    rw [h]
    exact ih

/-- The candidate set at each iteration is a filter of the original index by
the zero-row test of the current matrix. -/
theorem deCandidates_filter (m : AdjMatrix) (k : Nat) :
    deCandidates m k = m.index.filter (rowAllZero (deState m k).1) := by
  show (deState m k).2 = _
  rw [deState_snd]
  show (deState m k).1.index.filter (rowAllZero (deState m k).1) = _
  rw [deState_index]

-- The spring loop is the dead-end loop of the transposed matrix.

/-- One spring step on a transposed state is the transpose of one dead-end
step. -/
theorem spStep_transpose (st : AdjMatrix × List String) :
    spStep (transposeM st.1, st.2) = (transposeM (deStep st).1, (deStep st).2) := rfl

/-- The spring loop state is the transposed dead-end loop state of the
transposed matrix. -/
theorem spState_eq_transpose (m : AdjMatrix) (k : Nat) :
    spState m k = (transposeM (deState (transposeM m) k).1, (deState (transposeM m) k).2) := by
  induction k with
  | zero => rfl
  | succ n ih =>
    have h1 : spState m (n + 1) = spStep (spState m n) :=
      Function.iterate_succ_apply' spStep n (m, zeroColNodes m)
    have h2 : deState (transposeM m) (n + 1) = deStep (deState (transposeM m) n) :=
      Function.iterate_succ_apply' deStep n (transposeM m, zeroRowNodes (transposeM m))
    rw [h1, ih, h2]
    exact spStep_transpose (deState (transposeM m) n)

/-- The spring candidates coincide with the dead-end candidates of the
transposed matrix. -/
theorem spCandidates_eq_transpose (m : AdjMatrix) (k : Nat) :
    spCandidates m k = deCandidates (transposeM m) k := by
  show (spState m k).2 = (deState (transposeM m) k).2
  rw [spState_eq_transpose]

-- C9: monotone growth of the candidate sets.

/-- C9: at every iteration of both pruning loops, the candidate set
recomputed at iteration k+1 contains the candidate set of iteration k. -/
theorem C9_candidates_monotone (m : AdjMatrix) (k : Nat) :
    deCandidates m k ⊆ deCandidates m (k + 1) ∧
    spCandidates m k ⊆ spCandidates m (k + 1) := by
  have de : ∀ m2 : AdjMatrix, ∀ j : Nat, deCandidates m2 j ⊆ deCandidates m2 (j + 1) := by
    intro m2 j x hx
    have h1 : deState m2 (j + 1) = deStep (deState m2 j) :=
      Function.iterate_succ_apply' deStep j (m2, zeroRowNodes m2)
    rw [deCandidates_filter] at hx
    rcases List.mem_filter.mp hx with ⟨hidx, hrow⟩
    show x ∈ (deState m2 (j + 1)).2
    rw [deState_snd, h1]
    show x ∈ ((deStep (deState m2 j)).1.index.filter (rowAllZero (deStep (deState m2 j)).1))
    refine List.mem_filter.mpr ⟨?_, ?_⟩
    · show x ∈ (deState m2 j).1.index
      rw [deState_index]
      exact hidx
    · exact rowAllZero_zeroOutColumns (deState m2 j).1 (deState m2 j).2 x hrow
  refine ⟨de m k, ?_⟩
  rw [spCandidates_eq_transpose, spCandidates_eq_transpose]
  exact de (transposeM m) k

-- C10: termination of the pruning loops within |index| iterations.

/-- A state whose recomputed candidates equal its current candidates is a
fixed point of the dead-end step. -/
theorem deStep_fixed_of_snd (st : AdjMatrix × List String)
    (h : (deStep st).2 = st.2) : deStep (deStep st) = deStep st := by
  show (zeroOutColumns (deStep st).1 (deStep st).2,
      zeroRowNodes (zeroOutColumns (deStep st).1 (deStep st).2)) = deStep st
  rw [h]
  show (zeroOutColumns (zeroOutColumns st.1 st.2) st.2,
      zeroRowNodes (zeroOutColumns (zeroOutColumns st.1 st.2) st.2)) = _
  rw [zeroOutColumns_idem]
  rfl

/-- The fueled dead-end loop returns the candidate component of the fuel-th
iterate of the loop step: once the loop reaches its fixed point the state no
longer moves, so early exit and continued iteration agree. -/
theorem deadendLoop_eq_iterate (fuel : Nat) : ∀ (m : AdjMatrix) (ls : List String),
    deadendLoop fuel m ls = (deStep^[fuel] (m, ls)).2 := by
  induction fuel with
  | zero => intro m ls; rfl
  | succ n ih =>
    intro m ls
    show (if zeroRowNodes (zeroOutColumns m ls) = ls
        then zeroRowNodes (zeroOutColumns m ls)
        else deadendLoop n (zeroOutColumns m ls) (zeroRowNodes (zeroOutColumns m ls))) = _
    have hsucc : deStep^[n + 1] (m, ls) = deStep^[n] (deStep (m, ls)) :=
      Function.iterate_succ_apply deStep n (m, ls)
    rw [hsucc]
    split
    case isTrue heq =>
      have hfix : deStep (deStep (m, ls)) = deStep (m, ls) :=
        deStep_fixed_of_snd (m, ls) heq
      rw [Function.iterate_fixed hfix n]
      rfl
    case isFalse hne =>
      exact ih (zeroOutColumns m ls) (zeroRowNodes (zeroOutColumns m ls))

/-- identify_deadends is the candidate set after index.length + 1 iterations. -/
theorem identify_deadends_eq_candidates (m : AdjMatrix) :
    identify_deadends m = deCandidates m (m.index.length + 1) :=
  deadendLoop_eq_iterate (m.index.length + 1) m (zeroRowNodes m)

/-- Filtering by a pointwise weaker predicate keeps the length no larger. -/
theorem filter_length_mono {α : Type} (p q : α → Bool) (h : ∀ x, p x = true → q x = true) :
    ∀ l : List α, (l.filter p).length ≤ (l.filter q).length := by
  intro l
  induction l with
  | nil => exact Nat.le_refl 0
  | cons x xs ih =>
    by_cases hp : p x = true
    · rw [List.filter_cons_of_pos hp, List.filter_cons_of_pos (h x hp)]
      exact Nat.succ_le_succ ih
    · rw [List.filter_cons_of_neg (by simpa using hp)]
      by_cases hq : q x = true
      · rw [List.filter_cons_of_pos hq]
        exact Nat.le_succ_of_le ih
      · rw [List.filter_cons_of_neg (by simpa using hq)]
        exact ih

/-- Filters by pointwise ordered predicates are equal or strictly grow. -/
theorem filter_eq_or_length_lt {α : Type} (p q : α → Bool) (h : ∀ x, p x = true → q x = true) :
    ∀ l : List α, l.filter p = l.filter q ∨ (l.filter p).length < (l.filter q).length := by
  intro l
  induction l with
  | nil => exact Or.inl rfl
  | cons x xs ih =>
    by_cases hp : p x = true
    · rw [List.filter_cons_of_pos hp, List.filter_cons_of_pos (h x hp)]
      rcases ih with heq | hlt
      · exact Or.inl (by rw [heq])
      · exact Or.inr (Nat.succ_lt_succ hlt)
    · rw [List.filter_cons_of_neg (by simpa using hp)]
      by_cases hq : q x = true
      · rw [List.filter_cons_of_pos hq]
        exact Or.inr (Nat.lt_succ_of_le (filter_length_mono p q h xs))
      · rw [List.filter_cons_of_neg (by simpa using hq)]
        exact ih

/-- Each loop iteration either reproduces the candidate set or strictly
enlarges it. -/
theorem deCandidates_eq_or_lt (m : AdjMatrix) (k : Nat) :
    deCandidates m k = deCandidates m (k + 1) ∨
      (deCandidates m k).length < (deCandidates m (k + 1)).length := by
  have h1 : deState m (k + 1) = deStep (deState m k) :=
    Function.iterate_succ_apply' deStep k (m, zeroRowNodes m)
  rw [deCandidates_filter m k, deCandidates_filter m (k + 1), h1]
  exact filter_eq_or_length_lt _ _
    (fun x hx => rowAllZero_zeroOutColumns (deState m k).1 (deState m k).2 x hx) m.index

/-- The candidate set never exceeds the index length. -/
theorem deCandidates_length_le (m : AdjMatrix) (k : Nat) :
    (deCandidates m k).length ≤ m.index.length := by
  rw [deCandidates_filter]
  exact List.length_filter_le _ _

/-- The dead-end candidates reach their fixed point within index.length
iterations. -/
theorem deCandidates_stabilizes (m : AdjMatrix) :
    ∃ j, j ≤ m.index.length ∧ deCandidates m j = deCandidates m (j + 1) := by
  by_contra hcon
  push_neg at hcon
  have aux : ∀ j, j ≤ m.index.length + 1 → j ≤ (deCandidates m j).length := by
    intro j
    induction j with
    | zero => intro _; exact Nat.zero_le _
    | succ n ih =>
      intro hle
      have hn : n ≤ m.index.length := Nat.lt_succ_iff.mp hle
      rcases deCandidates_eq_or_lt m n with heq | hlt
      · exact absurd heq (hcon n hn)
      · exact Nat.succ_le_of_lt
          (Nat.lt_of_le_of_lt (ih (Nat.le_succ_of_le hn)) hlt)
  have h1 := aux (m.index.length + 1) (Nat.le_refl _)
  have h2 := deCandidates_length_le m (m.index.length + 1)
  exact Nat.not_succ_le_self m.index.length (Nat.le_trans h1 h2)

/-- Once the candidates stabilize, every later state equals the state right
after stabilization. -/
theorem deState_stationary (m : AdjMatrix) (j : Nat)
    (h : deCandidates m j = deCandidates m (j + 1)) :
    ∀ extra, deState m (j + 1 + extra) = deState m (j + 1) := by
  have h1 : deState m (j + 1) = deStep (deState m j) :=
    Function.iterate_succ_apply' deStep j (m, zeroRowNodes m)
  have hsnd : (deStep (deState m j)).2 = (deState m j).2 := by
    rw [← h1]
    exact h.symm
  have hfix : deStep (deState m (j + 1)) = deState m (j + 1) := by
    rw [h1]
    exact deStep_fixed_of_snd (deState m j) hsnd
  intro extra
  show deStep^[j + 1 + extra] (m, zeroRowNodes m) = _
  rw [Nat.add_comm (j + 1) extra, Function.iterate_add_apply]
  exact Function.iterate_fixed hfix extra

/-- The candidate set is the same at every point from stabilization on. -/
theorem deCandidates_const_from (m : AdjMatrix) (j : Nat)
    (h : deCandidates m j = deCandidates m (j + 1)) (i : Nat) (hij : j + 1 ≤ i) :
    deCandidates m i = deCandidates m (j + 1) := by
  obtain ⟨extra, rfl⟩ := Nat.exists_eq_add_of_le hij
  show (deState m (j + 1 + extra)).2 = _
  rw [deState_stationary m j h extra]
  rfl

/-- C10: both pruning loops reach their fixed point within at most
index.length iterations, and running the loop with any amount of additional
fuel returns the same set: the while-loop terminates. -/
theorem C10_loops_terminate (m : AdjMatrix) :
    (∃ j, j ≤ m.index.length ∧ deCandidates m j = deCandidates m (j + 1)) ∧
    (∀ extra, deadendLoop (m.index.length + 1 + extra) m (zeroRowNodes m) =
      identify_deadends m) ∧
    (∃ j, j ≤ m.index.length ∧ spCandidates m j = spCandidates m (j + 1)) ∧
    (∀ extra, springLoop (m.index.length + 1 + extra) m (zeroColNodes m) =
      identify_springs m) := by
  have hde : ∀ m2 : AdjMatrix, ∀ extra,
      deadendLoop (m2.index.length + 1 + extra) m2 (zeroRowNodes m2) =
        identify_deadends m2 := by
    intro m2 extra
    obtain ⟨j, hj, hstab⟩ := deCandidates_stabilizes m2
    have h1 : deadendLoop (m2.index.length + 1 + extra) m2 (zeroRowNodes m2) =
        deCandidates m2 (m2.index.length + 1 + extra) :=
      deadendLoop_eq_iterate _ m2 (zeroRowNodes m2)
    rw [h1, identify_deadends_eq_candidates]
    rw [deCandidates_const_from m2 j hstab (m2.index.length + 1 + extra) (by omega)]
    rw [deCandidates_const_from m2 j hstab (m2.index.length + 1) (by omega)]
  refine ⟨deCandidates_stabilizes m, hde m, ?_, ?_⟩
  · obtain ⟨j, hj, hstab⟩ := deCandidates_stabilizes (transposeM m)
    refine ⟨j, hj, ?_⟩
    rw [spCandidates_eq_transpose, spCandidates_eq_transpose]
    exact hstab
  · intro extra
    have hsp : springLoop (m.index.length + 1 + extra) m (zeroColNodes m) =
        deadendLoop (m.index.length + 1 + extra) (transposeM m) (zeroRowNodes (transposeM m)) := by
      have h := springLoop_transpose (m.index.length + 1 + extra) (transposeM m) (zeroColNodes m)
      rw [transposeM_transposeM] at h
      exact h
    rw [hsp, identify_springs_eq_transpose]
    exact hde (transposeM m) extra

-- C2: the domain and values of compute_centralities.

/-- Lookup of a key absent from the association list is none. -/
theorem alookup_eq_none {β : Type} (k : String) (l : List (String × β))
    (h : k ∉ l.map Prod.fst) : alookup k l = none := by
  induction l with
  | nil => rfl
  | cons p rest ih =>
    simp only [List.map_cons, List.mem_cons, not_or] at h
    show (if p.1 = k then some p.2 else alookup k rest) = none
    rw [if_neg (fun he => h.1 he.symm), ih h.2]

/-- Lookup skips a prefix that does not carry the key. -/
theorem alookup_append {β : Type} (k : String) (l1 l2 : List (String × β))
    (h : k ∉ l1.map Prod.fst) : alookup k (l1 ++ l2) = alookup k l2 := by
  induction l1 with
  | nil => rfl
  | cons p rest ih =>
    simp only [List.map_cons, List.mem_cons, not_or] at h
    show (if p.1 = k then some p.2 else alookup k (rest ++ l2)) = alookup k l2
    rw [if_neg (fun he => h.1 he.symm), ih h.2]

/-- The positional update map leaves entries with other keys unchanged. -/
theorem map_setNat_of_not_mem (k : String) (w : Nat) (c : List (String × Nat))
    (h : k ∉ c.map Prod.fst) :
    (c.map fun p => if p.1 = k then (k, w) else p) = c := by
  induction c with
  | nil => rfl
  | cons p rest ih =>
    simp only [List.map_cons, List.mem_cons, not_or] at h
    simp only [List.map_cons]
    rw [if_neg (fun he => h.1 he.symm), ih h.2]

/-- The stored value of a key present once in the association list. -/
theorem dictGet0_present (k : String) (v : Nat) (c1 c2 : List (String × Nat))
    (h1 : k ∉ c1.map Prod.fst) : dictGet0 (c1 ++ (k, v) :: c2) k = v := by
  show (alookup k (c1 ++ (k, v) :: c2)).getD 0 = v
  rw [alookup_append k c1 _ h1]
  show ((if k = k then some v else alookup k c2).getD 0) = v
  rw [if_pos rfl]
  rfl

/-- Setting a key present once keeps its position and replaces its value. -/
theorem dictSetNat_present (k : String) (w : Nat) (c1 c2 : List (String × Nat)) (v : Nat)
    (h1 : k ∉ c1.map Prod.fst) (h2 : k ∉ c2.map Prod.fst) :
    dictSetNat (c1 ++ (k, v) :: c2) k w = c1 ++ (k, w) :: c2 := by
  have hl : alookup k (c1 ++ (k, v) :: c2) = some v := by
    rw [alookup_append k c1 _ h1]
    show (if k = k then some v else alookup k c2) = some v
    rw [if_pos rfl]
  show (match alookup k (c1 ++ (k, v) :: c2) with
    | none => (c1 ++ (k, v) :: c2) ++ [(k, w)]
    | some _ => (c1 ++ (k, v) :: c2).map fun (p : String × Nat) =>
        if p.1 = k then (k, w) else p) = _
  rw [hl]
  show ((c1 ++ (k, v) :: c2).map fun (p : String × Nat) =>
      if p.1 = k then (k, w) else p) = _
  rw [List.map_append, map_setNat_of_not_mem k w c1 h1, List.map_cons]
  rw [show (if ((k, v) : String × Nat).1 = k then (k, w) else (k, v)) = (k, w) from if_pos rfl]
  rw [map_setNat_of_not_mem k w c2 h2]

/-- An absent key reads as zero. -/
theorem dictGet0_absent (k : String) (c : List (String × Nat))
    (h : k ∉ c.map Prod.fst) : dictGet0 c k = 0 := by
  show (alookup k c).getD 0 = 0
  rw [alookup_eq_none k c h]
  rfl

/-- Setting an absent key appends it at the end. -/
theorem dictSetNat_absent (k : String) (w : Nat) (c : List (String × Nat))
    (h : k ∉ c.map Prod.fst) : dictSetNat c k w = c ++ [(k, w)] := by
  show (match alookup k c with
    | none => c ++ [(k, w)]
    | some _ => c.map fun (p : String × Nat) => if p.1 = k then (k, w) else p) = _
  rw [alookup_eq_none k c h]

/-- The degree added by one section splits off the head contribution. -/
theorem nodeDegree_cons (s : Section) (rest : List Section) (k : String) :
    nodeDegree (s :: rest) k =
      ((if k = s.upstream then 1 else 0) + (if k = s.downstream then 1 else 0)) +
        nodeDegree rest k := by
  simp only [nodeDegree, List.countP_cons]
  by_cases hup : k = s.upstream <;> by_cases hdown : k = s.downstream <;>
    simp [hup, hdown] <;> omega

/-- The upstream check on a state carrying the key once adds its
contribution to the stored value in place. -/
theorem centUp_present (k : String) (s : Section) (c1 c2 : List (String × Nat)) (v : Nat)
    (h1 : k ∉ c1.map Prod.fst) (h2 : k ∉ c2.map Prod.fst) :
    centUp k (c1 ++ (k, v) :: c2) s =
      c1 ++ (k, v + (if k = s.upstream then 1 else 0)) :: c2 := by
  unfold centUp
  split
  · rw [dictGet0_present k v c1 c2 h1, dictSetNat_present k (v + 1) c1 c2 v h1 h2]
  · norm_num

/-- The downstream check on a state carrying the key once adds its
contribution to the stored value in place. -/
theorem centDown_present (k : String) (s : Section) (c1 c2 : List (String × Nat)) (v : Nat)
    (h1 : k ∉ c1.map Prod.fst) (h2 : k ∉ c2.map Prod.fst) :
    centDown k (c1 ++ (k, v) :: c2) s =
      c1 ++ (k, v + (if k = s.downstream then 1 else 0)) :: c2 := by
  unfold centDown
  split
  · rw [dictGet0_present k v c1 c2 h1, dictSetNat_present k (v + 1) c1 c2 v h1 h2]
  · norm_num

/-- Processing one section on a state carrying the key once adds the head
contribution to the stored value in place. -/
theorem centUpdate_present (k : String) (s : Section) (c1 c2 : List (String × Nat)) (v : Nat)
    (h1 : k ∉ c1.map Prod.fst) (h2 : k ∉ c2.map Prod.fst) :
    centUpdate k (c1 ++ (k, v) :: c2) s =
      c1 ++ (k, v + ((if k = s.upstream then 1 else 0) + (if k = s.downstream then 1 else 0)))
        :: c2 := by
  unfold centUpdate
  rw [centUp_present k s c1 c2 v h1 h2,
    centDown_present k s c1 c2 (v + (if k = s.upstream then 1 else 0)) h1 h2,
    Nat.add_assoc]

/-- The inner loop on a state carrying the key once adds the full degree to
the stored value in place. -/
theorem centNodeLoop_present (k : String) : ∀ (sections : List Section)
    (c1 c2 : List (String × Nat)) (v : Nat),
    k ∉ c1.map Prod.fst → k ∉ c2.map Prod.fst →
    centNodeLoop sections k (c1 ++ (k, v) :: c2) =
      c1 ++ (k, v + nodeDegree sections k) :: c2 := by
  intro sections
  induction sections with
  | nil =>
    intro c1 c2 v _ _
    show c1 ++ (k, v) :: c2 = c1 ++ (k, v + nodeDegree [] k) :: c2
    norm_num [nodeDegree]
  | cons s rest ih =>
    intro c1 c2 v h1 h2
    show centNodeLoop rest k (centUpdate k (c1 ++ (k, v) :: c2) s) = _
    rw [centUpdate_present k s c1 c2 v h1 h2, ih c1 c2 _ h1 h2, nodeDegree_cons,
      Nat.add_assoc]

/-- The upstream check on a state without the key either appends the key
with value one or leaves the state unchanged. -/
theorem centUp_absent (k : String) (s : Section) (cent : List (String × Nat))
    (h : k ∉ cent.map Prod.fst) :
    centUp k cent s = if k = s.upstream then cent ++ [(k, 1)] else cent := by
  unfold centUp
  by_cases hup : k = s.upstream
  · rw [if_pos hup, if_pos hup, dictGet0_absent k cent h, dictSetNat_absent k (0 + 1) cent h]
  · rw [if_neg hup, if_neg hup]

/-- The downstream check on a state without the key either appends the key
with value one or leaves the state unchanged. -/
theorem centDown_absent (k : String) (s : Section) (cent : List (String × Nat))
    (h : k ∉ cent.map Prod.fst) :
    centDown k cent s = if k = s.downstream then cent ++ [(k, 1)] else cent := by
  unfold centDown
  by_cases hdown : k = s.downstream
  · rw [if_pos hdown, if_pos hdown, dictGet0_absent k cent h, dictSetNat_absent k (0 + 1) cent h]
  · rw [if_neg hdown, if_neg hdown]

/-- Processing one section on a state without the key appends the head
contribution when it is positive. -/
theorem centUpdate_absent (k : String) (s : Section) (cent : List (String × Nat))
    (h : k ∉ cent.map Prod.fst) :
    centUpdate k cent s =
      if ((if k = s.upstream then 1 else 0) + (if k = s.downstream then 1 else 0) : Nat) = 0
      then cent
      else cent ++ [(k, (if k = s.upstream then 1 else 0) + (if k = s.downstream then 1 else 0))] := by
  unfold centUpdate
  rw [centUp_absent k s cent h]
  by_cases hup : k = s.upstream
  · rw [if_pos hup]
    rw [centDown_present k s cent [] 1 h (by simp)]
    by_cases hdown : k = s.downstream <;> simp [hup, hdown]
  · rw [if_neg hup]
    rw [centDown_absent k s cent h]
    by_cases hdown : k = s.downstream
    · rw [if_pos hdown, if_neg hup, if_pos hdown]
      norm_num
    · rw [if_neg hdown, if_neg hup, if_neg hdown]
      norm_num

/-- The inner loop on a state without the key appends the key with its full
degree exactly when the degree is positive. -/
theorem centNodeLoop_absent (k : String) : ∀ (sections : List Section)
    (cent : List (String × Nat)), k ∉ cent.map Prod.fst →
    centNodeLoop sections k cent =
      if nodeDegree sections k = 0 then cent else cent ++ [(k, nodeDegree sections k)] := by
  intro sections
  induction sections with
  | nil =>
    intro cent _
    show cent = _
    norm_num [nodeDegree]
  | cons s rest ih =>
    intro cent h
    show centNodeLoop rest k (centUpdate k cent s) = _
    rw [centUpdate_absent k s cent h]
    set d0 : Nat := (if k = s.upstream then 1 else 0) + (if k = s.downstream then 1 else 0)
      with hd0
    by_cases h0 : d0 = 0
    · rw [if_pos h0, ih cent h, nodeDegree_cons, ← hd0, h0]
      norm_num
    · rw [if_neg h0, centNodeLoop_present k rest cent [] d0 h (by simp),
        nodeDegree_cons, ← hd0]
      rw [if_neg (by omega)]

/-- The outer loop of compute_centralities appends, in node order, one entry
per node of positive degree, provided the node ids are distinct and not
already present in the accumulator. -/
theorem compute_centralities_go (sections : List Section) :
    ∀ (nodes : List Node) (cent : List (String × Nat)),
      (nodes.map Node.id).Nodup →
      (∀ nd ∈ nodes, nd.id ∉ cent.map Prod.fst) →
      nodes.foldl (fun c nd => centNodeLoop sections nd.id c) cent =
        cent ++ nodes.filterMap (fun nd =>
          if nodeDegree sections nd.id = 0 then none
          else some (nd.id, nodeDegree sections nd.id)) := by
  intro nodes
  induction nodes with
  | nil =>
    intro cent _ _
    show cent = cent ++ []
    rw [List.append_nil]
  | cons nd rest ih =>
    intro cent hnodup habs
    show rest.foldl _ (centNodeLoop sections nd.id cent) = _
    rw [centNodeLoop_absent nd.id sections cent (habs nd (List.mem_cons_self nd rest))]
    simp only [List.map_cons, List.nodup_cons] at hnodup
    obtain ⟨hnd, hrest⟩ := hnodup
    by_cases h0 : nodeDegree sections nd.id = 0
    · rw [if_pos h0, ih cent hrest (fun nd2 h2 => habs nd2 (List.mem_cons_of_mem nd h2))]
      rw [List.filterMap_cons]
      rw [if_pos h0]
    · rw [if_neg h0]
      have habs2 : ∀ nd2 ∈ rest,
          nd2.id ∉ (cent ++ [(nd.id, nodeDegree sections nd.id)]).map Prod.fst := by
        intro nd2 h2
        rw [List.map_append]
        intro hmem
        rcases List.mem_append.mp hmem with hc | hs
        · exact habs nd2 (List.mem_cons_of_mem nd h2) hc
        · have heq : nd2.id = nd.id := by simpa using hs
          apply hnd
          rw [← heq]
          exact List.mem_map_of_mem Node.id h2
      rw [ih _ hrest habs2, List.append_assoc, List.filterMap_cons, if_neg h0]
      rfl

/-- A graph with a node C that no section references. -/
def zeroDegRoads : Roads :=
  { nodes := [{ id := "A" }, { id := "B" }, { id := "C" }]
    sections := [{ id := "s1", upstream := "A", downstream := "B" }] }

/-- C2 counterexample: C is an id of the Node collection of zeroDegRoads but
compute_centralities gives it no entry at all, so the domain of the mapping
is not the full Node collection and no node maps to 0. -/
theorem C2_counterexample :
    "C" ∈ zeroDegRoads.nodes.map Node.id ∧
    alookup "C" (compute_centralities zeroDegRoads) = none := by decide

/-- C2 (amended): for every Graph with distinct node ids, the centrality
mapping contains, in Node-collection order, exactly the node ids referenced
by at least one section, each mapped to the count of sections having it as
upstream plus the count having it as downstream (so a self-loop contributes
two); a node referenced by no section is absent from the mapping rather than
mapped to 0. -/
theorem C2_centralities_domain (roads : Roads)
    (h : (roads.nodes.map Node.id).Nodup) :
    compute_centralities roads =
      roads.nodes.filterMap (fun nd =>
        if nodeDegree roads.sections nd.id = 0 then none
        else some (nd.id, nodeDegree roads.sections nd.id)) := by
  show roads.nodes.foldl (fun c nd => centNodeLoop roads.sections nd.id c) [] = _
  rw [compute_centralities_go roads.sections roads.nodes [] h (by intro nd _; simp)]
  rfl

/-- C2 witness: the characterization evaluated on zeroDegRoads. -/
theorem C2_centralities_domain_witness :
    compute_centralities zeroDegRoads =
      zeroDegRoads.nodes.filterMap (fun nd =>
        if nodeDegree zeroDegRoads.sections nd.id = 0 then none
        else some (nd.id, nodeDegree zeroDegRoads.sections nd.id)) :=
  C2_centralities_domain zeroDegRoads (by decide)

-- C4: the reported maximum-centrality node.

/-- Every member of a list is bounded by listMax. -/
theorem le_listMax_of_mem : ∀ (vals : List Nat) (v : Nat), v ∈ vals → v ≤ listMax vals := by
  intro vals
  induction vals with
  | nil => intro v hv; cases hv
  | cons w t ih =>
    intro v hv
    show v ≤ Nat.max w (listMax t)
    rcases List.mem_cons.mp hv with h | h
    · rw [h]; exact Nat.le_max_left w (listMax t)
    · exact Nat.le_trans (ih v h) (Nat.le_max_right w (listMax t))

/-- Restatements of the max lemmas with Nat.max spelled syntactically. -/
theorem natMax_eq_left (a b : Nat) (h : b ≤ a) : Nat.max a b = a := Nat.max_eq_left h

/-- Nat.max with the larger argument on the right. -/
theorem natMax_eq_right (a b : Nat) (h : a ≤ b) : Nat.max a b = b := Nat.max_eq_right h

/-- The left argument is below Nat.max. -/
theorem natMax_le_left (a b : Nat) : a ≤ Nat.max a b := Nat.le_max_left a b

/-- The right argument is below Nat.max. -/
theorem natMax_le_right (a b : Nat) : b ≤ Nat.max a b := Nat.le_max_right a b

/-- Absorbing a dominated middle argument of a nested Nat.max. -/
theorem natMax_absorb (a b c : Nat) (h : b ≤ a) :
    Nat.max a (Nat.max b c) = Nat.max a c := by
  rcases Nat.le_total b c with hbc | hcb
  · rw [natMax_eq_right b c hbc]
  · rw [natMax_eq_left b c hcb, natMax_eq_left a b h,
      natMax_eq_left a c (Nat.le_trans hcb h)]

/-- find? on a cons whose head satisfies the predicate. -/
theorem find?_cons_pos {α : Type} (pred : α → Bool) (a : α) (l : List α)
    (h : pred a = true) : (a :: l).find? pred = some a := by
  simp [List.find?_cons, h]

/-- find? on a cons whose head fails the predicate. -/
theorem find?_cons_neg {α : Type} (pred : α → Bool) (a : α) (l : List α)
    (h : pred a = false) : (a :: l).find? pred = l.find? pred := by
  simp [List.find?_cons, h]

/-- The fold of the Python max builtin keeps the first pair attaining the
maximum value: replacing only on strictly greater values means ties keep the
earlier element. -/
theorem maxFold_find : ∀ (rest : List (String × Nat)) (p : String × Nat),
    some (rest.foldl (fun best q => if best.2 < q.2 then q else best) p) =
      (p :: rest).find? (fun q => decide (listMax ((p :: rest).map Prod.snd) ≤ q.2)) := by
  intro rest
  induction rest with
  | nil =>
    intro p
    show some p = _
    rw [find?_cons_pos (fun q => decide (listMax ((p :: []).map Prod.snd) ≤ q.2)) p []]
    simp [listMax]
  | cons q t ih =>
    intro p
    show some (t.foldl (fun best r => if best.2 < r.2 then r else best)
        (if p.2 < q.2 then q else p)) = _
    have hM : listMax ((p :: q :: t).map Prod.snd) =
        Nat.max p.2 (Nat.max q.2 (listMax (t.map Prod.snd))) := rfl
    by_cases hpq : p.2 < q.2
    · rw [if_pos hpq]
      have hM2 : listMax ((p :: q :: t).map Prod.snd) = listMax ((q :: t).map Prod.snd) := by
        rw [hM]
        exact natMax_eq_right _ _
          (Nat.le_trans (Nat.le_of_lt hpq) (natMax_le_left q.2 (listMax (t.map Prod.snd))))
    
      have hpfail : decide (listMax ((p :: q :: t).map Prod.snd) ≤ p.2) = false := by
        apply decide_eq_false
        intro hle
        have hq : q.2 ≤ listMax ((q :: t).map Prod.snd) :=
          natMax_le_left q.2 (listMax (t.map Prod.snd))
        rw [hM2] at hle
        exact Nat.lt_irrefl p.2 (Nat.lt_of_lt_of_le hpq (Nat.le_trans hq hle))
      rw [find?_cons_neg (fun r => decide (listMax ((p :: q :: t).map Prod.snd) ≤ r.2))
        p (q :: t) hpfail, hM2]
      exact ih q
    · rw [if_neg hpq]
      have hqp : q.2 ≤ p.2 := Nat.le_of_not_lt hpq
      have hM2 : listMax ((p :: q :: t).map Prod.snd) = listMax ((p :: t).map Prod.snd) := by
        rw [hM]
        exact natMax_absorb p.2 q.2 (listMax (t.map Prod.snd)) hqp
      rw [hM2]
      by_cases hp : decide (listMax ((p :: t).map Prod.snd) ≤ p.2) = true
      · rw [find?_cons_pos (fun r => decide (listMax ((p :: t).map Prod.snd) ≤ r.2))
          p (q :: t) hp, ih p,
          find?_cons_pos (fun r => decide (listMax ((p :: t).map Prod.snd) ≤ r.2)) p t hp]
      · have hp2 : decide (listMax ((p :: t).map Prod.snd) ≤ p.2) = false :=
          Bool.not_eq_true _ ▸ hp
        have hqfail : decide (listMax ((p :: t).map Prod.snd) ≤ q.2) = false := by
          apply decide_eq_false
          intro hle
          simp only [decide_eq_true_eq] at hp
          exact hp (Nat.le_trans hle hqp)
        rw [find?_cons_neg (fun r => decide (listMax ((p :: t).map Prod.snd) ≤ r.2))
            p (q :: t) hp2,
          find?_cons_neg (fun r => decide (listMax ((p :: t).map Prod.snd) ≤ r.2))
            q t hqfail,
          ih p,
          find?_cons_neg (fun r => decide (listMax ((p :: t).map Prod.snd) ≤ r.2))
            p t hp2]

/-- C4 (amended): for every Graph with a non-empty centrality mapping, the
reported node is the first key in the mapping order (Node-collection
insertion order) whose value attains the maximum, and that value is the
maximum of the mapping; the tie-break is first occurrence in insertion
order, not the lexicographically smallest id. -/
theorem C4_max_report (roads : Roads) (h : compute_centralities roads ≠ []) :
    max_centrality_key (compute_centralities roads) =
      ((compute_centralities roads).find?
        (fun q => decide (listMax ((compute_centralities roads).map Prod.snd) ≤ q.2))).map
        Prod.fst ∧
    ((compute_centralities roads).find?
        (fun q => decide (listMax ((compute_centralities roads).map Prod.snd) ≤ q.2))).map
        Prod.snd = some (listMax ((compute_centralities roads).map Prod.snd)) := by
  rcases hc : compute_centralities roads with _ | ⟨p, rest⟩
  · exact absurd hc h
  · have hfind := maxFold_find rest p
    constructor
    · show some ((rest.foldl (fun best q => if best.2 < q.2 then q else best) p).1) = _
      rw [← hfind]
      rfl
    · rw [← hfind]
      show some ((rest.foldl (fun best q => if best.2 < q.2 then q else best) p).2) = _
      have hpred := List.find?_some hfind.symm
      have hmem := List.mem_of_find?_eq_some hfind.symm
      simp only [decide_eq_true_eq] at hpred
      have hle : (rest.foldl (fun best q => if best.2 < q.2 then q else best) p).2 ≤
          listMax ((p :: rest).map Prod.snd) :=
        le_listMax_of_mem _ _ (List.mem_map_of_mem Prod.snd hmem)
      rw [Nat.le_antisymm hle hpred]

/-- A graph whose Node collection lists B before A and whose single section
gives both nodes the same degree. -/
def tieRoads : Roads :=
  { nodes := [{ id := "B" }, { id := "A" }]
    sections := [{ id := "s1", upstream := "B", downstream := "A" }] }

/-- C4 counterexample: on tieRoads both A and B have the maximum degree 1,
A is lexicographically smaller than B, yet the reported node is B (the
first in insertion order), refuting the lexicographic tie-break. -/
theorem C4_counterexample :
    max_centrality_key (compute_centralities tieRoads) = some "B" ∧
    alookup "A" (compute_centralities tieRoads) = some 1 ∧
    alookup "B" (compute_centralities tieRoads) = some 1 ∧
    strLt "A" "B" = true := by decide

/-- C4 witness: the amended characterization evaluated on tieRoads. -/
theorem C4_max_report_witness :
    max_centrality_key (compute_centralities tieRoads) =
      ((compute_centralities tieRoads).find?
        (fun q => decide (listMax ((compute_centralities tieRoads).map Prod.snd) ≤ q.2))).map
        Prod.fst ∧
    ((compute_centralities tieRoads).find?
        (fun q => decide (listMax ((compute_centralities tieRoads).map Prod.snd) ≤ q.2))).map
        Prod.snd = some (listMax ((compute_centralities tieRoads).map Prod.snd)) :=
  C4_max_report tieRoads (by decide)

-- C5: the duplicate section groups.

/-- Specification-side: the ids of the sections with the given endpoint
pair, in input order. -/
def groupIds (sections : List Section) (pr : String × String) : List String :=
  (sections.filter fun s => pairOf s = pr).map Section.id

/-- Lookup misses exactly the keys outside the association list. -/
theorem alookup_eq_none_iff {α β : Type} [DecidableEq α] (k : α) (l : List (α × β)) :
    alookup k l = none ↔ k ∉ l.map Prod.fst := by
  induction l with
  | nil => simp [alookup]
  | cons p rest ih =>
    show (if p.1 = k then some p.2 else alookup k rest) = none ↔ _
    by_cases hp : p.1 = k
    · simp [hp]
    · simp [hp, ih, Ne.symm hp]

/-- The in-place group extension keeps which pairs are present. -/
theorem alookup_isnone_dup_update (x pr : String × String) (sid : String)
    (l : List ((String × String) × List String)) :
    (alookup x (l.map fun q => if q.1 = pr then (q.1, q.2 ++ [sid]) else q) = none) ↔
      alookup x l = none := by
  induction l with
  | nil => exact Iff.rfl
  | cons q rest ih =>
    show (alookup x ((if q.1 = pr then (q.1, q.2 ++ [sid]) else q) :: _) = none) ↔ _
    by_cases hq : q.1 = pr
    · rw [if_pos hq]
      show ((if q.1 = x then some (q.2 ++ [sid]) else alookup x _) = none) ↔
        ((if q.1 = x then some q.2 else alookup x rest) = none)
      by_cases hx : q.1 = x
      · simp [hx]
      · simp [hx, ih]
    · rw [if_neg hq]
      show ((if q.1 = x then some q.2 else alookup x _) = none) ↔
        ((if q.1 = x then some q.2 else alookup x rest) = none)
      by_cases hx : q.1 = x
      · simp [hx]
      · simp [hx, ih]

/-- Lookup in a list extended by one entry at the end. -/
theorem alookup_append_single_none {α β : Type} [DecidableEq α] (x pr : α) (ids : β)
    (l : List (α × β)) :
    (alookup x (l ++ [(pr, ids)]) = none) ↔ (alookup x l = none ∧ ¬ x = pr) := by
  induction l with
  | nil =>
    show ((if pr = x then some ids else none) = none) ↔ (none = none ∧ ¬ x = pr)
    by_cases hx : pr = x
    · simp [hx]
    · rw [if_neg hx]
      exact ⟨fun _ => ⟨rfl, fun h => hx h.symm⟩, fun _ => rfl⟩
  | cons q rest ih =>
    show ((if q.1 = x then some q.2 else alookup x (rest ++ [(pr, ids)])) = none) ↔
      ((if q.1 = x then some q.2 else alookup x rest) = none ∧ ¬ x = pr)
    by_cases hx2 : q.1 = x
    · simp [hx2]
    · simp [hx2, ih]

/-- dupInsert on a pair already seen extends the list of that pair. -/
theorem dupInsert_some (seen : List ((String × String) × List String))
    (pr : String × String) (sid : String) (ids : List String)
    (h : alookup pr seen = some ids) :
    dupInsert seen pr sid =
      seen.map fun q => if q.1 = pr then (q.1, q.2 ++ [sid]) else q := by
  unfold dupInsert
  rw [h]

/-- dupInsert on a new pair appends a fresh group at the end. -/
theorem dupInsert_none (seen : List ((String × String) × List String))
    (pr : String × String) (sid : String) (h : alookup pr seen = none) :
    dupInsert seen pr sid = seen ++ [(pr, [sid])] := by
  unfold dupInsert
  rw [h]

/-- The group of a pair grows by the head section when the head carries that
pair. -/
theorem groupIds_cons_pos (s : Section) (rest : List Section) (pr : String × String)
    (h : pairOf s = pr) : groupIds (s :: rest) pr = s.id :: groupIds rest pr := by
  unfold groupIds
  rw [List.filter_cons_of_pos (by simpa using h), List.map_cons]

/-- The group of a pair ignores a head section with a different pair. -/
theorem groupIds_cons_neg (s : Section) (rest : List Section) (pr : String × String)
    (h : ¬ pairOf s = pr) : groupIds (s :: rest) pr = groupIds rest pr := by
  unfold groupIds
  rw [List.filter_cons_of_neg (by simpa using h)]

/-- The grouping fold of identify_duplicate_sections: existing groups are
extended in place with the matching section ids in input order, and the
pairs not yet seen are appended as new groups in first-occurrence order. -/
theorem dupFold_characterize : ∀ (sections : List Section)
    (seen : List ((String × String) × List String)),
    sections.foldl (fun sn s => dupInsert sn (pairOf s) s.id) seen =
      seen.map (fun g => (g.1, g.2 ++ groupIds sections g.1)) ++
      ((firstOccs (sections.map pairOf)).filter
          (fun pr => alookup pr seen = none)).map
        (fun pr => (pr, groupIds sections pr)) := by
  intro sections
  induction sections with
  | nil =>
    intro seen
    show seen = _
    simp [groupIds, firstOccs]
  | cons s rest ih =>
    intro seen
    show rest.foldl _ (dupInsert seen (pairOf s) s.id) = _
    have hfo : firstOccs ((s :: rest).map pairOf) =
        pairOf s :: (firstOccs (rest.map pairOf)).filter (fun b => decide (b ≠ pairOf s)) := rfl
    cases hl : alookup (pairOf s) seen with
    | some ids =>
      rw [dupInsert_some seen (pairOf s) s.id ids hl, ih]
      have h1 : (seen.map (fun q => if q.1 = pairOf s then (q.1, q.2 ++ [s.id]) else q)).map
            (fun g => (g.1, g.2 ++ groupIds rest g.1)) =
          seen.map (fun g => (g.1, g.2 ++ groupIds (s :: rest) g.1)) := by
        rw [List.map_map]
        apply List.map_congr_left
        intro g _
        show (fun g => (g.1, g.2 ++ groupIds rest g.1))
            (if g.1 = pairOf s then (g.1, g.2 ++ [s.id]) else g) =
          (g.1, g.2 ++ groupIds (s :: rest) g.1)
        by_cases hgp : g.1 = pairOf s
        · rw [if_pos hgp]
          show (g.1, (g.2 ++ [s.id]) ++ groupIds rest g.1) = _
          rw [groupIds_cons_pos s rest g.1 hgp.symm, List.append_assoc]
          rfl
        · rw [if_neg hgp]
          show (g.1, g.2 ++ groupIds rest g.1) = _
          rw [groupIds_cons_neg s rest g.1 (fun h => hgp h.symm)]
      have hstepA : (firstOccs (rest.map pairOf)).filter
            (fun pr2 => decide (alookup pr2
              (seen.map fun q => if q.1 = pairOf s then (q.1, q.2 ++ [s.id]) else q) = none)) =
          (firstOccs (rest.map pairOf)).filter
            (fun a => decide (alookup a seen = none) && decide (a ≠ pairOf s)) := by
        apply List.filter_congr
        intro x _
        by_cases hx : alookup x seen = none
        · have hxp : ¬ x = pairOf s := by
            intro he
            rw [he, hl] at hx
            exact Option.noConfusion hx
          simp [alookup_isnone_dup_update, hx, hxp]
        · simp [alookup_isnone_dup_update, hx]
      have h2 : ((firstOccs (rest.map pairOf)).filter
            (fun pr2 => decide (alookup pr2
              (seen.map fun q => if q.1 = pairOf s then (q.1, q.2 ++ [s.id]) else q) = none))).map
            (fun pr2 => (pr2, groupIds rest pr2)) =
          ((firstOccs ((s :: rest).map pairOf)).filter
            (fun pr2 => decide (alookup pr2 seen = none))).map
            (fun pr2 => (pr2, groupIds (s :: rest) pr2)) := by
        rw [hfo, List.filter_cons_of_neg (by simp [hl]), List.filter_filter, hstepA]
        apply List.map_congr_left
        intro x hx
        rcases List.mem_filter.mp hx with ⟨_, hPx⟩
        simp only [Bool.and_eq_true] at hPx
        have hxn : alookup x seen = none := of_decide_eq_true hPx.1
        have hxp : ¬ pairOf s = x := by
          intro he
          rw [← he, hl] at hxn
          exact Option.noConfusion hxn
        show (x, groupIds rest x) = (x, groupIds (s :: rest) x)
        rw [groupIds_cons_neg s rest x hxp]
      rw [h1, h2]
    | none =>
      rw [dupInsert_none seen (pairOf s) s.id hl, ih]
      have hkeys := (alookup_eq_none_iff (pairOf s) seen).mp hl
      have h1 : (seen ++ [(pairOf s, [s.id])]).map
            (fun g => (g.1, g.2 ++ groupIds rest g.1)) =
          seen.map (fun g => (g.1, g.2 ++ groupIds (s :: rest) g.1)) ++
            [(pairOf s, groupIds (s :: rest) (pairOf s))] := by
        rw [List.map_append]
        congr 1
        · apply List.map_congr_left
          intro g hg
          have hgp : ¬ pairOf s = g.1 := by
            intro he
            apply hkeys
            rw [he]
            exact List.mem_map_of_mem Prod.fst hg
          show (g.1, g.2 ++ groupIds rest g.1) = (g.1, g.2 ++ groupIds (s :: rest) g.1)
          rw [groupIds_cons_neg s rest g.1 hgp]
        · show [(pairOf s, [s.id] ++ groupIds rest (pairOf s))] = _
          rw [groupIds_cons_pos s rest (pairOf s) rfl]
          rfl
      have hstepA : (firstOccs (rest.map pairOf)).filter
            (fun pr2 => decide (alookup pr2 (seen ++ [(pairOf s, [s.id])]) = none)) =
          (firstOccs (rest.map pairOf)).filter
            (fun a => decide (alookup a seen = none) && decide (a ≠ pairOf s)) := by
        apply List.filter_congr
        intro x _
        by_cases hx : alookup x seen = none <;> by_cases hxp : x = pairOf s <;>
          simp [alookup_append_single_none, hx, hxp]
      have h2 : ((firstOccs (rest.map pairOf)).filter
            (fun pr2 => decide (alookup pr2 (seen ++ [(pairOf s, [s.id])]) = none))).map
            (fun pr2 => (pr2, groupIds rest pr2)) =
          (((firstOccs (rest.map pairOf)).filter (fun b => decide (b ≠ pairOf s))).filter
            (fun pr2 => decide (alookup pr2 seen = none))).map
            (fun pr2 => (pr2, groupIds (s :: rest) pr2)) := by
        rw [List.filter_filter, hstepA]
        apply List.map_congr_left
        intro x hx
        rcases List.mem_filter.mp hx with ⟨_, hPx⟩
        simp only [Bool.and_eq_true] at hPx
        have hxp : ¬ pairOf s = x := by
          intro he
          have := of_decide_eq_true hPx.2
          exact this he.symm
        show (x, groupIds rest x) = (x, groupIds (s :: rest) x)
        rw [groupIds_cons_neg s rest x hxp]
      rw [h1, h2, hfo, List.filter_cons_of_pos (by simp [hl]), List.map_cons,
        List.append_assoc]
      rfl

/-- identify_duplicate_sections groups the sections by endpoint pair, in
first-occurrence order of the pair, each group listing its section ids in
input order. -/
theorem identify_duplicate_sections_eq (sections : List Section) :
    identify_duplicate_sections sections =
      (firstOccs (sections.map pairOf)).map (fun pr => (pr, groupIds sections pr)) := by
  show sections.foldl (fun sn s => dupInsert sn (pairOf s) s.id) [] = _
  rw [dupFold_characterize sections []]
  simp [alookup]

/-- The three-section example of the duplicate detector. -/
def dupExampleSections : List Section :=
  [ { id := "s1", upstream := "A", downstream := "B" }
  , { id := "s2", upstream := "A", downstream := "B" }
  , { id := "s3", upstream := "B", downstream := "C" } ]

/-- C5: the reported duplicate groups are exactly the endpoint pairs with
more than one section, in first-occurrence order of the pair, each group
listing its section ids in input order; on the example s1:(A,B), s2:(A,B),
s3:(B,C) the single group (A,B) with members [s1, s2] is returned and s3
belongs to no group. -/
theorem C5_duplicate_detector :
    (∀ sections : List Section,
      duplicate_groups sections =
        ((firstOccs (sections.map pairOf)).map
          (fun pr => (pr, groupIds sections pr))).filter (fun g => 1 < g.2.length)) ∧
    duplicate_groups dupExampleSections = [(("A", "B"), ["s1", "s2"])] ∧
    (∀ g ∈ duplicate_groups dupExampleSections, "s3" ∉ g.2) := by
  refine ⟨?_, by decide, by decide⟩
  intro sections
  show (identify_duplicate_sections sections).filter _ = _
  rw [identify_duplicate_sections_eq]
